import Mathlib

set_option autoImplicit false
set_option maxRecDepth 4000

/-! Shallow embedding of the `questionnaire` package
    (src/questionnaire/__init__.py): a command-line questionnaire engine
    with conditional question variants and back-navigation.

    Python values recorded as answers are either `None`, a string, or a
    list of strings; ordered dicts are modelled as association lists that
    preserve insertion order; the external picker is modelled by a finite
    script of user actions; Python exceptions are modelled with `Except`. -/

/-- Python value stored in the `choices` ordered dict: `None` (the picker's
back handler returns `(None, -1)`), a single selected string, or the list
of selections of a multiple-choice prompt. -/
inductive PyVal where
  | none
  | str (s : String)
  | list (l : List String)
  deriving DecidableEq, Repr

/-- Errors of the embedded code: `keyError` models a Python `KeyError`
(looking up a key absent from a dict), `typeError` a `TypeError` (invalid
operand types or calling a non-callable), `valueError` a `ValueError`
(`list.remove` on a missing element), `invalidCondition` the
`AssertionError` of `Condition.__init__`, and `noInput` marks the picker
blocking forever because the user-action script is exhausted. -/
inductive QErr where
  | keyError
  | typeError
  | valueError
  | invalidCondition
  | noInput
  deriving DecidableEq, Repr

/-- A condition operator as supplied by the caller: either a symbol string
(looked up in `Condition._OPERATORS`) or a user callable, recorded with the
number of positional arguments that `inspect.getargspec` would report. -/
inductive OpSpec where
  | sym (s : String)
  | call (nargs : Nat) (f : PyVal → PyVal → Bool)

/-- The recognized operator symbols, the keys of `Condition._OPERATORS`. -/
def recognizedOps : List String := ["==", "!=", "<=", ">=", "in", "not in"]

/-- Lexicographic strict order on character lists, mirroring Python string
comparison (code-point order). -/
def lexLtChar : List Char → List Char → Bool
  | [], [] => false
  | [], _ :: _ => true
  | _ :: _, [] => false
  | x :: xs, y :: ys => if x < y then true else if x = y then lexLtChar xs ys else false

/-- Python `a < b` on strings. -/
def strLtB (a b : String) : Bool := lexLtChar a.toList b.toList

/-- Python `a <= b` on strings. -/
def strLeB (a b : String) : Bool := strLtB a b || a == b

/-- Python `a <= b` on lists of strings (elementwise lexicographic, a
proper prefix is smaller). -/
def listLeStr : List String → List String → Bool
  | [], _ => true
  | _ :: _, [] => false
  | x :: xs, y :: ys => if strLtB x y then true else if x == y then listLeStr xs ys else false

/-- Python `a <= b` on `PyVal`s; comparing `None` or mixing strings and
lists raises `TypeError`. -/
def pyLe : PyVal → PyVal → Except QErr Bool
  | PyVal.str a, PyVal.str b => .ok (strLeB a b)
  | PyVal.list a, PyVal.list b => .ok (listLeStr a b)
  | _, _ => .error .typeError

/-- Python `a >= b` on `PyVal`s, which for strings and lists agrees with
`b <= a` and raises `TypeError` in exactly the same mixed cases. -/
def pyGe (a b : PyVal) : Except QErr Bool := pyLe b a

/-- Substring test: Python `needle in hay` for strings. -/
def strContainsB (hay needle : String) : Bool := decide (List.IsInfix needle.toList hay.toList)

/-- Python `x in y` on `PyVal`s: membership for a list on the right,
substring for a string on the right (the left operand must then be a
string), `TypeError` otherwise. -/
def pyIn : PyVal → PyVal → Except QErr Bool
  | x, PyVal.list l =>
    .ok (match x with
         | PyVal.str s => l.contains s
         | _ => false)
  | PyVal.str s, PyVal.str t => .ok (strContainsB t s)
  | _, PyVal.str _ => .error .typeError
  | _, PyVal.none => .error .typeError

/-- Semantics of a recognized operator symbol applied as
`op(val, answer)`, i.e. the function `Condition._OPERATORS[op]`; an
unrecognized symbol is returned unchanged by `get_operator` and calling a
string raises `TypeError`. -/
def applySym : String → PyVal → PyVal → Except QErr Bool
  | "==", a, b => .ok (a == b)
  | "!=", a, b => .ok (!(a == b))
  | "<=", a, b => pyLe a b
  | ">=", a, b => pyGe a b
  | "in", a, b => pyIn a b
  | "not in", a, b => (pyIn a b).map (fun r => !r)
  | _, _, _ => .error .typeError

/-- Application of `Condition.get_operator(op)` to `(val, answer)`; a user
callable whose arity is not two raises `TypeError` when called with two
arguments. -/
def applyOp : OpSpec → PyVal → PyVal → Except QErr Bool
  | OpSpec.sym s, a, b => applySym s a b
  | OpSpec.call n f, a, b => if n == 2 then .ok (f a b) else .error .typeError

/-- `Condition.check_operator`: a recognized symbol is valid, a callable is
valid exactly when `inspect.getargspec` reports two positional arguments,
and anything else (e.g. an unrecognized string, on which `getargspec`
raises) is invalid. -/
def checkOperator : OpSpec → Bool
  | OpSpec.sym s => recognizedOps.contains s
  | OpSpec.call n _ => n == 2

/-- A validated `Condition`: the three equal-length property lists. -/
structure Condition where
  keys : List String
  vals : List PyVal
  operators : List OpSpec

/-- The effective operator list of `Condition.__init__`: the supplied list,
or `['=='] * len(keys)` when the `operators` key is absent. -/
def defaultOps (keys : List String) (operatorsOpt : Option (List OpSpec)) : List OpSpec :=
  match operatorsOpt with
  | some l => l
  | Option.none => List.replicate keys.length (OpSpec.sym "==")

/-- `Condition.__init__`: stores keys, vals and the (possibly defaulted)
operators, then asserts that the three lists have the length of `keys` and
that every operator passes `check_operator`; an assertion failure is the
`InvalidCondition` error. -/
def mkCondition (keys : List String) (vals : List PyVal)
    (operatorsOpt : Option (List OpSpec)) : Except QErr Condition :=
  if vals.length == keys.length && (defaultOps keys operatorsOpt).length == keys.length then
    if (defaultOps keys operatorsOpt).all checkOperator then
      .ok ⟨keys, vals, defaultOps keys operatorsOpt⟩
    else .error .invalidCondition
  else .error .invalidCondition

/-- The condition dict handed to `Question.__init__`: each of the three
list-valued entries may be absent. -/
structure CondSpec where
  keys : Option (List String)
  vals : Option (List PyVal)
  operators : Option (List OpSpec)

/-- A `Question`: key, options, multiplicity flag and optional validated
condition. -/
structure Question where
  key : String
  options : List String
  multiple : Bool
  condition : Option Condition

/-- `Question.__init__`: a `Condition` is built (and validated) only when
the condition dict has both a `keys` and a `vals` entry; otherwise the
question is unconditional. -/
def mkQuestion (key : String) (options : List String) (multiple : Bool)
    (cspec : CondSpec) : Except QErr Question :=
  match cspec.keys, cspec.vals with
  | some ks, some vs =>
    match mkCondition ks vs cspec.operators with
    | .error e => .error e
    | .ok c => .ok ⟨key, options, multiple, some c⟩
  | _, _ => .ok ⟨key, options, multiple, Option.none⟩

/-- Ordered-dict lookup: the value of the first entry with the given key. -/
def odGet {α : Type} (d : List (String × α)) (k : String) : Option α :=
  match d.find? (fun p => p.1 == k) with
  | some p => some p.2
  | Option.none => Option.none

/-- Ordered-dict assignment `d[k] = v`: update in place when the key is
present, append a new entry otherwise. -/
def odSet {α : Type} (d : List (String × α)) (k : String) (v : α) : List (String × α) :=
  if d.any (fun p => p.1 == k) then d.map (fun p => if p.1 == k then (k, v) else p)
  else d ++ [(k, v)]

/-- `self.questions.setdefault(key, []).append(question)`. -/
def odAppendVariant (d : List (String × List Question)) (k : String) (x : Question) :
    List (String × List Question) :=
  if d.any (fun p => p.1 == k) then
    d.map (fun p => if p.1 == k then (p.1, p.2 ++ [x]) else p)
  else d ++ [(k, [x])]

/-- The `Questionnaire` state: the registry `questions` (key to variant
list, insertion-ordered) and the answers `choices` (key to recorded
answer, insertion-ordered). -/
structure Questionnaire where
  questions : List (String × List Question)
  choices : List (String × PyVal)

/-- `Questionnaire.add_question(question)`: append the instance to the
variant list of its key, creating the list if absent. -/
def add_question (q : Questionnaire) (question : Question) : Questionnaire :=
  ⟨odAppendVariant q.questions question.key question, q.choices⟩

/-- `Questionnaire.go_back(n)`: keep the first `max(len(choices)-n-1, 0)`
entries of `choices` (Nat subtraction truncates exactly like the `max`). -/
def go_back (q : Questionnaire) (n : Nat) : Questionnaire :=
  ⟨q.questions, q.choices.take (q.choices.length - n - 1)⟩

/-- The `(key, val, op)` triples that `check_condition` zips together. -/
def tripleList (c : Condition) : List (String × PyVal × OpSpec) :=
  c.keys.zip (c.vals.zip c.operators)

/-- The loop body of `Questionnaire.check_condition`: look up each key in
`choices` (a missing key raises `KeyError`), apply the operator to
`(val, answer)`, return `False` on the first falsified triple. -/
def checkTriples (choices : List (String × PyVal)) :
    List (String × PyVal × OpSpec) → Except QErr Bool
  | [] => .ok true
  | (k, v, op) :: rest =>
    match odGet choices k with
    | Option.none => .error .keyError
    | some ans =>
      match applyOp op v ans with
      | .error e => .error e
      | .ok false => .ok false
      | .ok true => checkTriples choices rest

/-- `Questionnaire.check_condition`: an absent condition (`None`) is
satisfied; otherwise every zipped triple must hold. -/
def check_condition (choices : List (String × PyVal)) :
    Option Condition → Except QErr Bool
  | Option.none => .ok true
  | some c => checkTriples choices (tripleList c)

/-- Scan of the variant list in `Questionnaire.which_question`: the first
variant whose condition is satisfied, `none` when no variant qualifies. -/
def whichAux (choices : List (String × PyVal)) :
    List Question → Except QErr (Option Question)
  | [] => .ok Option.none
  | question :: rest =>
    match check_condition choices question.condition with
    | .error e => .error e
    | .ok true => .ok (some question)
    | .ok false => whichAux choices rest

/-- `Questionnaire.which_question(key)`: `self.questions[key]` (a missing
key raises `KeyError`), then the first qualifying variant. -/
def which_question (q : Questionnaire) (key : String) : Except QErr (Option Question) :=
  match odGet q.questions key with
  | Option.none => .error .keyError
  | some vars => whichAux q.choices vars

/-- One user action at the picker: choose the entry `s` (shown at
non-negative index `i`), or press a back key (the custom handler returns
`(None, -1)`). -/
inductive PickResult where
  | picked (s : String) (i : Nat)
  | back
  deriving DecidableEq, Repr

/-- `back_pick`: run the picker on the next scripted user action, yielding
`(option, index)`, with `(None, -1)` on back-navigation. -/
def back_pick : List PickResult → Except QErr ((Option String × Int) × List PickResult)
  | [] => .error .noInput
  | PickResult.back :: rest => .ok ((Option.none, -1), rest)
  | PickResult.picked s i :: rest => .ok ((some s, Int.ofNat i), rest)

/-- The `while True` loop of `back_pick_multiple` over the working pool and
the accumulated selections: back returns the accumulator with the back
signal, the ALL sentinel returns the literal `[ALL]`, the DONE sentinel
returns the accumulator, and a real option is appended to the accumulator
and removed from the pool (`list.remove` on a missing element raises
`ValueError`). -/
def bpmLoop (ALL DONE : String) :
    List PickResult → List String → List String →
    Except QErr (List String × Int × List PickResult)
  | [], _, _ => .error .noInput
  | PickResult.back :: rest, _, acc => .ok (acc, -1, rest)
  | PickResult.picked s i :: rest, pool, acc =>
    if s == ALL then .ok ([ALL], Int.ofNat i, rest)
    else if s == DONE then .ok (acc, Int.ofNat i, rest)
    else if pool.contains s then bpmLoop ALL DONE rest (pool.erase s) (acc ++ [s])
    else .error .valueError

/-- `back_pick_multiple`: seed the pool with the ALL sentinel, the real
options and the DONE sentinel, start with no selections, and loop. -/
def back_pick_multiple (script : List PickResult) (options : List String)
    (ALL DONE : String) : Except QErr (List String × Int × List PickResult) :=
  bpmLoop ALL DONE script ([ALL] ++ options ++ [DONE]) []

/-- The value `prompt` records from a single-choice pick (`None` on
back-navigation). -/
def recordPick : Option String → PyVal
  | Option.none => PyVal.none
  | some s => PyVal.str s

/-- `Questionnaire.prompt(key, options, multiple)`: run the picker, store
the result under `key` in `choices` (before inspecting the signal), and on
back-navigation rewind: for `multiple`, `go_back(0)` when at least one
selection was accumulated and `go_back(1)` otherwise; for single-select,
`go_back(1)`; returning `False` exactly on back-navigation. -/
def prompt (q : Questionnaire) (key : String) (options : List String)
    (multiple : Bool) (script : List PickResult) :
    Except QErr (Questionnaire × Bool × List PickResult) :=
  if multiple then
    match back_pick_multiple script options "all" "done..." with
    | .error e => .error e
    | .ok (sel, i, rest) =>
      let q1 : Questionnaire := ⟨q.questions, odSet q.choices key (PyVal.list sel)⟩
      if i < 0 then
        if sel.isEmpty then .ok (go_back q1 1, false, rest)
        else .ok (go_back q1 0, false, rest)
      else .ok (q1, true, rest)
  else
    match back_pick script with
    | .error e => .error e
    | .ok ((opt, i), rest) =>
      let q1 : Questionnaire := ⟨q.questions, odSet q.choices key (recordPick opt)⟩
      if i < 0 then .ok (go_back q1 1, false, rest)
      else .ok (q1, true, rest)

/-- The `for key in self.questions.keys()` loop of
`Questionnaire.ask_questions` over the remaining registry entries: resolve
the active variant, prompt when one is resolved and the key is not yet
answered, and abort the pass (returning `False`) as soon as a prompt
signals back-navigation. -/
def ask_list : List (String × List Question) → Questionnaire → List PickResult →
    Except QErr (Questionnaire × Bool × List PickResult)
  | [], q, script => .ok (q, true, script)
  | (key, _) :: rest, q, script =>
    match which_question q key with
    | .error e => .error e
    | .ok Option.none => ask_list rest q script
    | .ok (some question) =>
      match odGet q.choices key with
      | some _ => ask_list rest q script
      | Option.none =>
        match prompt q key question.options question.multiple script with
        | .error e => .error e
        | .ok (q', true, s') => ask_list rest q' s'
        | .ok (q', false, s') => .ok (q', false, s')

/-- `Questionnaire.ask_questions`: one full pass over the registered keys
in registration order. -/
def ask_questions (q : Questionnaire) (script : List PickResult) :
    Except QErr (Questionnaire × Bool × List PickResult) :=
  ask_list q.questions q script

/-- Does a triple of `check_condition` hold: its key is recorded and the
operator applied to `(val, answer)` returns `True`. -/
def tripleHolds (choices : List (String × PyVal)) (t : String × PyVal × OpSpec) : Bool :=
  match odGet choices t.1 with
  | Option.none => false
  | some ans =>
    match applyOp t.2.2 t.2.1 ans with
    | .ok true => true
    | _ => false

/-- Does a variant qualify in `which_question`: its condition is absent or
evaluates to `True`. -/
def qualifies (choices : List (String × PyVal)) (v : Question) : Bool :=
  match check_condition choices v.condition with
  | .ok true => true
  | _ => false

/-- The condition keys a variant references. -/
def condKeys (v : Question) : List String :=
  match v.condition with
  | Option.none => []
  | some c => c.keys

/-- Does some variant of the list carry no condition (such a key is always
resolved by `which_question`). -/
def unconditionedVar (vars : List Question) : Bool :=
  vars.any (fun v => v.condition.isNone)

/-- The caller contract of the spec, checked entry by entry: every
condition key of every variant must be an earlier-registered key that is
guaranteed to be answered, i.e. one with an unconditioned variant;
`prior` accumulates those guaranteed earlier keys. -/
def contractAux : List (String × List Question) → List String → Bool
  | [], _ => true
  | (key, vars) :: rest, prior =>
    vars.all (fun v => (condKeys v).all (fun ck => prior.contains ck))
      && contractAux rest (if unconditionedVar vars then prior ++ [key] else prior)

/-- The caller contract over the whole registry. -/
def contractOk (qs : List (String × List Question)) : Bool := contractAux qs []

/-! Ordered-dict helper lemmas -/

theorem odGet_cons {α : Type} (k' : String) (v : α) (d : List (String × α)) (k : String) :
    odGet ((k', v) :: d) k = if (k' == k) = true then some v else odGet d k := by
  by_cases h : (k' == k) = true <;> simp [odGet, List.find?, h]

theorem odGet_append {α : Type} (d e : List (String × α)) (k : String) :
    odGet (d ++ e) k =
      match odGet d k with
      | some v => some v
      | Option.none => odGet e k := by
  induction d with
  | nil => simp [odGet]
  | cons p rest ih =>
    obtain ⟨k', v⟩ := p
    rw [List.cons_append, odGet_cons, odGet_cons]
    by_cases h : (k' == k) = true <;> simp [h, ih]

theorem odGet_eq_none_iff_any {α : Type} (d : List (String × α)) (k : String) :
    odGet d k = Option.none ↔ (d.any fun p => p.1 == k) = false := by
  induction d with
  | nil => simp [odGet]
  | cons p rest ih =>
    obtain ⟨k', v⟩ := p
    rw [odGet_cons, List.any_cons]
    by_cases h : (k' == k) = true <;> simp [h, ih]

theorem odGet_mapAppend (d : List (String × List Question)) (k : String) (x : Question) :
    odGet (d.map fun p => if p.1 == k then (p.1, p.2 ++ [x]) else p) k
      = (odGet d k).map (fun l => l ++ [x]) := by
  induction d with
  | nil => simp [odGet]
  | cons p rest ih =>
    obtain ⟨k', vs⟩ := p
    rw [List.map_cons, odGet_cons]
    by_cases h : (k' == k) = true
    · simp only [h, if_true]
      rw [odGet_cons]
      simp [h]
    · have hb : (k' == k) = false := by
        cases hx : (k' == k)
        · rfl
        · exact absurd hx h
      rw [odGet_cons]
      simp only [hb, Bool.false_eq_true, if_false]
      exact ih

theorem odGet_odAppendVariant (d : List (String × List Question)) (k : String) (x : Question) :
    odGet (odAppendVariant d k x) k = some ((odGet d k).getD [] ++ [x]) := by
  unfold odAppendVariant
  by_cases ha : (d.any fun p => p.1 == k) = true
  · simp only [ha, if_true]
    rw [odGet_mapAppend]
    cases hg : odGet d k with
    | none =>
      rw [odGet_eq_none_iff_any] at hg
      rw [hg] at ha
      exact absurd ha (by simp)
    | some vs => simp
  · have hb : (d.any fun p => p.1 == k) = false := by
      cases hx : d.any fun p => p.1 == k
      · rfl
      · exact absurd hx ha
    simp only [hb, Bool.false_eq_true, if_false]
    rw [odGet_append, (odGet_eq_none_iff_any d k).mpr hb]
    simp [odGet, List.find?]

/-- Claim C1 (supporting): what the code's `add_question` actually does:
it takes a pre-built `Question` instance, appends it to the variant list
registered under `question.key`, and leaves `choices` untouched; it is a
plain state update returning no chainable handle. -/
theorem add_question_registers (q : Questionnaire) (question : Question) :
    odGet (add_question q question).questions question.key
      = some ((odGet q.questions question.key).getD [] ++ [question])
  ∧ (add_question q question).choices = q.choices :=
  ⟨odGet_odAppendVariant q.questions question.key question, rfl⟩

/-! Condition evaluation as a conjunction -/

theorem checkTriples_ok_true_iff (choices : List (String × PyVal))
    (ts : List (String × PyVal × OpSpec)) :
    checkTriples choices ts = .ok true ↔ ts.all (tripleHolds choices) = true := by
  induction ts with
  | nil => simp [checkTriples]
  | cons t rest ih =>
    obtain ⟨k, v, op⟩ := t
    rw [List.all_cons]
    cases hk : odGet choices k with
    | none => simp [checkTriples, hk, tripleHolds]
    | some ans =>
      cases hap : applyOp op v ans with
      | error e => simp [checkTriples, hk, hap, tripleHolds]
      | ok b =>
        cases b with
        | false => simp [checkTriples, hk, hap, tripleHolds]
        | true => simp [checkTriples, hk, hap, tripleHolds, ih]

/-- Claim C4: condition evaluation is a conjunction: `check_condition`
returns `True` exactly when every zipped `(key, val, op)` triple holds,
i.e. the key is recorded and `op(val, recorded_answer[key])` is `True`;
in particular a condition with zero triples always evaluates to `True`. -/
theorem check_condition_conjunction (choices : List (String × PyVal)) (c : Condition) :
    (check_condition choices (some c) = .ok true
      ↔ (tripleList c).all (tripleHolds choices) = true)
  ∧ (c.keys = [] → check_condition choices (some c) = .ok true) := by
  constructor
  · exact checkTriples_ok_true_iff choices (tripleList c)
  · intro hk
    simp [check_condition, tripleList, hk, checkTriples]

/-! Condition construction -/

/-- Claim C5: `Condition` construction succeeds exactly when the value and
(possibly defaulted) operator lists have the length of the key list and
every operator passes `check_operator`; in every other case it fails with
`InvalidCondition`. -/
theorem condition_construction_iff (keys : List String) (vals : List PyVal)
    (opsOpt : Option (List OpSpec)) :
    ((∃ c, mkCondition keys vals opsOpt = .ok c)
      ↔ (vals.length = keys.length ∧ (defaultOps keys opsOpt).length = keys.length
          ∧ (defaultOps keys opsOpt).all checkOperator = true))
  ∧ (¬ (vals.length = keys.length ∧ (defaultOps keys opsOpt).length = keys.length
          ∧ (defaultOps keys opsOpt).all checkOperator = true) →
      mkCondition keys vals opsOpt = .error .invalidCondition) := by
  unfold mkCondition
  by_cases h1 : vals.length = keys.length
  · by_cases h2 : (defaultOps keys opsOpt).length = keys.length
    · by_cases h3 : (defaultOps keys opsOpt).all checkOperator = true
      · simp [h1, h2, h3]
      · simp [h1, h2, h3]
    · simp [h1, h2]
  · simp [h1]

/-- Claim C5 witness: a mismatched-length specification fails with
`InvalidCondition`, and a well-formed one succeeds. -/
theorem condition_construction_iff_witness :
    mkCondition ["day"] [] Option.none = .error .invalidCondition
  ∧ (∃ c, mkCondition ["day"] [PyVal.str "saturday"] Option.none = .ok c) := by
  constructor
  · exact (condition_construction_iff ["day"] [] Option.none).2 (by decide)
  · exact (condition_construction_iff ["day"] [PyVal.str "saturday"] Option.none).1.mpr
      (by decide)

/-! The ALL sentinel of the multiple-choice picker -/

/-- Claim C7: at any point of the multiple-choice loop (any working pool
and any accumulated selections), selecting the ALL sentinel makes
`back_pick_multiple` return immediately with the literal one-element list
containing only the ALL marker string, paired with the non-negative
(success) index. -/
theorem pick_many_all_sentinel (ALL DONE : String) (script : List PickResult)
    (pool acc opts : List String) (i : Nat) :
    bpmLoop ALL DONE (PickResult.picked ALL i :: script) pool acc
      = .ok ([ALL], Int.ofNat i, script)
  ∧ back_pick_multiple (PickResult.picked ALL i :: script) opts ALL DONE
      = .ok ([ALL], Int.ofNat i, script)
  ∧ 0 ≤ Int.ofNat i := by
  refine ⟨by simp [bpmLoop], by simp [back_pick_multiple, bpmLoop], Int.natCast_nonneg i⟩

/-! Half-specified condition dicts -/

/-- Claim C10: a `Question` built from a condition dict having `keys` but
no `vals` entry, or `vals` but no `keys` entry, is silently unconditional:
no `Condition` is constructed (so none of its validation runs) and no
error is raised, whatever the supplied lists contain. -/
theorem question_halfspec_unconditional (key : String) (opts : List String) (m : Bool)
    (ks : List String) (vs : List PyVal) (ops1 ops2 : Option (List OpSpec)) :
    mkQuestion key opts m ⟨some ks, Option.none, ops1⟩ = .ok ⟨key, opts, m, Option.none⟩
  ∧ mkQuestion key opts m ⟨Option.none, some vs, ops2⟩ = .ok ⟨key, opts, m, Option.none⟩ :=
  ⟨rfl, rfl⟩

/-! Back-navigation: the tentative write and the rewind -/

theorem odSet_absent {α : Type} (d : List (String × α)) (k : String) (v : α)
    (h : odGet d k = Option.none) : odSet d k v = d ++ [(k, v)] := by
  unfold odSet
  rw [(odGet_eq_none_iff_any d k).mp h]
  simp

theorem odGet_dropLast_none {α : Type} (d : List (String × α)) (k : String)
    (h : odGet d k = Option.none) : odGet d.dropLast k = Option.none := by
  rw [odGet_eq_none_iff_any] at h ⊢
  rw [List.any_eq_false] at h ⊢
  exact fun x hx => h x ((List.dropLast_sublist d).mem hx)

theorem prompt_single_back (q : Questionnaire) (key : String) (opts : List String)
    (rest : List PickResult) (hfresh : odGet q.choices key = Option.none) :
    prompt q key opts false (PickResult.back :: rest)
      = .ok (⟨q.questions, q.choices.dropLast⟩, false, rest) := by
  have hset : odSet q.choices key (recordPick Option.none) = q.choices ++ [(key, PyVal.none)] :=
    odSet_absent q.choices key PyVal.none hfresh
  simp only [prompt, back_pick, Bool.false_eq_true, if_false, hset, go_back]
  norm_num
  rw [List.take_append_of_le_length (by omega), ← List.dropLast_eq_take]

theorem prompt_multiple_back (q : Questionnaire) (key : String) (opts : List String)
    (script rest : List PickResult) (sel : List String) (i : Int)
    (hfresh : odGet q.choices key = Option.none)
    (hbpm : back_pick_multiple script opts "all" "done..." = .ok (sel, i, rest))
    (hi : i < 0) :
    prompt q key opts true script
      = .ok (⟨q.questions, if sel.isEmpty then q.choices.dropLast else q.choices⟩, false, rest) := by
  have hset : odSet q.choices key (PyVal.list sel) = q.choices ++ [(key, PyVal.list sel)] :=
    odSet_absent q.choices key (PyVal.list sel) hfresh
  simp only [prompt, hbpm, if_true, hset, go_back, hi, if_pos]
  cases sel with
  | nil =>
    simp only [List.isEmpty_nil, if_true]
    norm_num
    rw [List.take_append_of_le_length (by omega), ← List.dropLast_eq_take]
  | cons s ss =>
    simp only [List.isEmpty_cons, Bool.false_eq_true, if_false]
    norm_num

/-- Claim C2: on a back-navigation signal `prompt` returns `False` and: for
a single-select prompt, or a multiple-select prompt with zero accumulated
selections, exactly the most recently recorded completed answer is dropped
from `choices` (and nothing is recorded for `key`); for a multiple-select
prompt with at least one accumulated selection, `choices` is left exactly
as it was (the partial selections are discarded and `key` stays
unanswered, so the pass guard will re-prompt it). -/
theorem prompt_back_navigation (q : Questionnaire) (key : String) (opts : List String)
    (script rest : List PickResult) (sel : List String) (i : Int)
    (hfresh : odGet q.choices key = Option.none) :
    (prompt q key opts false (PickResult.back :: rest)
       = .ok (⟨q.questions, q.choices.dropLast⟩, false, rest))
  ∧ (back_pick_multiple script opts "all" "done..." = .ok (sel, i, rest) → i < 0 → sel = [] →
       prompt q key opts true script = .ok (⟨q.questions, q.choices.dropLast⟩, false, rest))
  ∧ (back_pick_multiple script opts "all" "done..." = .ok (sel, i, rest) → i < 0 → sel ≠ [] →
       prompt q key opts true script = .ok (⟨q.questions, q.choices⟩, false, rest))
  ∧ odGet q.choices.dropLast key = Option.none := by
  refine ⟨prompt_single_back q key opts rest hfresh, ?_, ?_, odGet_dropLast_none q.choices key hfresh⟩
  · intro hbpm hi hsel
    rw [prompt_multiple_back q key opts script rest sel i hfresh hbpm hi, hsel]
    rfl
  · intro hbpm hi hsel
    rw [prompt_multiple_back q key opts script rest sel i hfresh hbpm hi]
    cases sel with
    | nil => exact absurd rfl hsel
    | cons s ss => rfl

/-- Claim C2 witness: concrete back-navigations after answering `day`:
single-select back and multiple-select back with no accumulated pick both
drop the `day` answer; multiple-select back after one accumulated pick
leaves `choices` unchanged. -/
theorem prompt_back_navigation_witness :
    prompt ⟨[], [("day", PyVal.str "monday")]⟩ "time" ["x", "y"] false [PickResult.back]
      = .ok (⟨[], []⟩, false, [])
  ∧ prompt ⟨[], [("day", PyVal.str "monday")]⟩ "time" ["x", "y"] true [PickResult.back]
      = .ok (⟨[], []⟩, false, [])
  ∧ prompt ⟨[], [("day", PyVal.str "monday")]⟩ "time" ["x", "y"] true
        [PickResult.picked "x" 1, PickResult.back]
      = .ok (⟨[], [("day", PyVal.str "monday")]⟩, false, []) := by
  refine ⟨?_, ?_, ?_⟩
  · exact (prompt_back_navigation ⟨[], [("day", PyVal.str "monday")]⟩ "time" ["x", "y"]
      [PickResult.back] [] [] (-1) (by decide)).1
  · exact (prompt_back_navigation ⟨[], [("day", PyVal.str "monday")]⟩ "time" ["x", "y"]
      [PickResult.back] [] [] (-1) (by decide)).2.1 rfl (by decide) rfl
  · exact (prompt_back_navigation ⟨[], [("day", PyVal.str "monday")]⟩ "time" ["x", "y"]
      [PickResult.picked "x" 1, PickResult.back] [] ["x"] (-1) (by decide)).2.2.1 rfl
      (by decide) (by decide)

/-- Claim C9: `go_back(n)` retains exactly the first
`max(len(choices) - n - 1, 0)` entries in order, i.e. it removes `n + 1`
entries from the end, one more than its argument; and since `prompt` first
writes the tentative answer for the (previously unanswered) current key
into `choices`, `go_back(1)` after that write nets to dropping exactly the
last completed answer and `go_back(0)` nets to leaving `choices`
unchanged. -/
theorem go_back_removes_succ (q : Questionnaire) (n : Nat) (key : String) (v : PyVal)
    (hfresh : odGet q.choices key = Option.none) :
    ((go_back q n).choices <+: q.choices
       ∧ (go_back q n).choices.length = q.choices.length - (n + 1))
  ∧ (go_back ⟨q.questions, odSet q.choices key v⟩ 1).choices = q.choices.dropLast
  ∧ (go_back ⟨q.questions, odSet q.choices key v⟩ 0).choices = q.choices := by
  have hset : odSet q.choices key v = q.choices ++ [(key, v)] :=
    odSet_absent q.choices key v hfresh
  refine ⟨⟨List.take_prefix _ _, ?_⟩, ?_, ?_⟩
  · simp only [go_back, List.length_take]
    omega
  · simp only [go_back, hset, List.length_append, List.length_cons, List.length_nil]
    norm_num
    rw [List.take_append_of_le_length (by omega), ← List.dropLast_eq_take]
  · simp only [go_back, hset, List.length_append, List.length_cons, List.length_nil]
    norm_num

/-- Claim C9 witness: with two completed answers, `go_back(0)` keeps
exactly one of them, and after the tentative write for a fresh key,
`go_back(1)` nets to dropping exactly one completed answer. -/
theorem go_back_removes_succ_witness :
    (go_back ⟨[], [("day", PyVal.str "monday"), ("time", PyVal.str "night")]⟩ 0).choices.length = 1
  ∧ (go_back ⟨[], odSet [("day", PyVal.str "monday"), ("time", PyVal.str "night")]
        "activities" (PyVal.str "x")⟩ 1).choices
      = [("day", PyVal.str "monday")] := by
  have h := go_back_removes_succ ⟨[], [("day", PyVal.str "monday"), ("time", PyVal.str "night")]⟩
    0 "activities" (PyVal.str "x") (by decide)
  refine ⟨?_, ?_⟩
  · rw [h.1.2]
    decide
  · rw [h.2.1]
    decide

/-! Variant resolution: which_question -/

theorem whichAux_eq_find (choices : List (String × PyVal)) (vars : List Question)
    (herr : ∀ v ∈ vars, (check_condition choices v.condition).isOk = true) :
    whichAux choices vars = .ok (vars.find? (qualifies choices)) := by
  induction vars with
  | nil => rfl
  | cons v rest ih =>
    have hv := herr v (List.mem_cons_self v rest)
    rw [List.find?_cons]
    cases hc : check_condition choices v.condition with
    | error e =>
      rw [hc] at hv
      simp [Except.isOk, Except.toBool] at hv
    | ok b =>
      have hq : qualifies choices v = b := by
        cases b <;> simp [qualifies, hc]
      cases b with
      | true => simp [whichAux, hc, hq]
      | false =>
        simp [whichAux, hc, hq, ih (fun u hu => herr u (List.mem_cons_of_mem v hu))]

/-- Claim C3: for a registered key whose variants' conditions all evaluate
without error, `which_question` returns exactly the first variant in
registration order that qualifies (its condition is absent or evaluates
to `True`) and `none` when no variant qualifies — `List.find?` over the
variant list; and a variant without a condition always qualifies. -/
theorem which_question_first_match (q : Questionnaire) (key : String) (vars : List Question)
    (hreg : odGet q.questions key = some vars)
    (herr : ∀ v ∈ vars, (check_condition q.choices v.condition).isOk = true) :
    which_question q key = .ok (vars.find? (qualifies q.choices))
  ∧ ∀ v : Question, v.condition = Option.none → qualifies q.choices v = true := by
  constructor
  · unfold which_question
    rw [hreg]
    exact whichAux_eq_find q.choices vars herr
  · intro v hv
    simp [qualifies, check_condition, hv]

/-! The activities example questionnaire of the repository's client. -/

def dayQ : Question := ⟨"day", ["monday", "friday", "saturday"], false, Option.none⟩

def timeQ : Question := ⟨"time", ["morning", "night"], false, Option.none⟩

def actCondNight : Condition := ⟨["time"], [PyVal.str "night"], [OpSpec.sym "=="]⟩

def actCondSatMorning : Condition :=
  ⟨["day", "time"], [PyVal.str "saturday", PyVal.str "morning"],
   [OpSpec.sym "==", OpSpec.sym "=="]⟩

def actCondMorning : Condition := ⟨["time"], [PyVal.str "morning"], [OpSpec.sym "=="]⟩

def actNightQ : Question :=
  ⟨"activities", ["eat tacos de pastor", "go to the cantina", "do some programming"],
   true, some actCondNight⟩

def actSatMorningQ : Question :=
  ⟨"activities", ["eat barbacoa", "watch footy match", "walk the dog"],
   true, some actCondSatMorning⟩

def actMorningQ : Question :=
  ⟨"activities", ["eat granola", "get dressed", "go to work"], true, some actCondMorning⟩

def exRegistry : List (String × List Question) :=
  [("day", [dayQ]), ("time", [timeQ]), ("activities", [actNightQ, actSatMorningQ, actMorningQ])]

def exChoicesSat : List (String × PyVal) :=
  [("day", PyVal.str "saturday"), ("time", PyVal.str "morning")]

/-- Claim C3 witness: with `day = saturday` and `time = morning` recorded,
the `activities` key resolves to its second variant (the first whose
condition holds in registration order). -/
theorem which_question_first_match_witness :
    which_question ⟨exRegistry, exChoicesSat⟩ "activities" = .ok (some actSatMorningQ) := by
  have h := which_question_first_match ⟨exRegistry, exChoicesSat⟩ "activities"
    [actNightQ, actSatMorningQ, actMorningQ] rfl (by decide)
  rw [h.1]
  rfl

/-! Missing answer keys in condition evaluation -/

def exShortCond : Condition :=
  ⟨["a", "b"], [PyVal.str "y", PyVal.str "z"], [OpSpec.sym "==", OpSpec.sym "=="]⟩

/-- Claim C8 counterexample: this condition references the key `b`, which
is absent from the recorded choices, yet its evaluation returns `False`
instead of failing with a key-lookup error: the first triple is already
false, so the loop short-circuits before the missing key is ever looked
up. -/
theorem check_condition_missing_key_no_error :
    odGet [("a", PyVal.str "x")] "b" = (Option.none : Option PyVal)
  ∧ exShortCond.keys.contains "b" = true
  ∧ check_condition [("a", PyVal.str "x")] (some exShortCond) = .ok false :=
  ⟨rfl, rfl, rfl⟩

theorem checkTriples_append_missing (choices : List (String × PyVal))
    (pre : List (String × PyVal × OpSpec)) (k : String) (v : PyVal) (op : OpSpec)
    (post : List (String × PyVal × OpSpec))
    (hpre : ∀ t ∈ pre, tripleHolds choices t = true)
    (hmiss : odGet choices k = Option.none) :
    checkTriples choices (pre ++ (k, v, op) :: post) = .error .keyError := by
  induction pre with
  | nil => simp [checkTriples, hmiss]
  | cons t pre' ih =>
    obtain ⟨k1, v1, op1⟩ := t
    have ht := hpre _ (List.mem_cons_self _ _)
    rw [List.cons_append]
    cases hk : odGet choices k1 with
    | none =>
      simp only [tripleHolds, hk] at ht
      exact Bool.noConfusion ht
    | some ans =>
      cases hap : applyOp op1 v1 ans with
      | error e2 =>
        simp only [tripleHolds, hk, hap] at ht
        exact Bool.noConfusion ht
      | ok b =>
        cases b with
        | false =>
          simp only [tripleHolds, hk, hap] at ht
          exact Bool.noConfusion ht
        | true =>
          simp [checkTriples, hk, hap,
                ih (fun u hu => hpre u (List.mem_cons_of_mem _ hu))]

/-- Claim C8 (amended): condition evaluation fails with a key-lookup error
(the spec's `MissingAnswer`) rather than returning `False` exactly when it
reaches the missing key, i.e. when every triple before the first
absent-key triple holds (an earlier false triple short-circuits to a plain
`False` instead); and the error is caught nowhere in the core: it
propagates through `check_condition`, `which_question` and the
`ask_questions` pass. -/
theorem check_condition_missing_key_error (choices : List (String × PyVal))
    (pre post : List (String × PyVal × OpSpec)) (k : String) (v : PyVal) (op : OpSpec)
    (c : Condition) (q : Questionnaire) (key : String) (qq : Question)
    (tl vs : List Question) (rest : List (String × List Question))
    (script : List PickResult) (e : QErr) :
    ((∀ t ∈ pre, tripleHolds choices t = true) → odGet choices k = Option.none →
       checkTriples choices (pre ++ (k, v, op) :: post) = .error .keyError)
  ∧ (tripleList c = pre ++ (k, v, op) :: post → (∀ t ∈ pre, tripleHolds choices t = true) →
       odGet choices k = Option.none →
       check_condition choices (some c) = .error .keyError)
  ∧ (odGet q.questions key = some (qq :: tl) →
       check_condition q.choices qq.condition = .error e →
       which_question q key = .error e)
  ∧ (which_question q key = .error e →
       ask_list ((key, vs) :: rest) q script = .error e) := by
  refine ⟨checkTriples_append_missing choices pre k v op post, ?_, ?_, ?_⟩
  · intro heq hpre hmiss
    show checkTriples choices (tripleList c) = .error .keyError
    rw [heq]
    exact checkTriples_append_missing choices pre k v op post hpre hmiss
  · intro hreg herr
    unfold which_question
    rw [hreg]
    simp [whichAux, herr]
  · intro hwq
    simp [ask_list, hwq]

def exMissVar : Question := ⟨"activities", ["x"], false, some exShortCond⟩

def exMissQ : Questionnaire := ⟨[("activities", [exMissVar])], [("a", PyVal.str "y")]⟩

/-- Claim C8 witness: with `a = y` recorded, the first triple of the
condition holds, the second references the absent key `b`, and the
key-lookup error propagates uncaught through `check_condition`,
`which_question` and the pass. -/
theorem check_condition_missing_key_error_witness :
    checkTriples [("a", PyVal.str "y")]
        ([("a", PyVal.str "y", OpSpec.sym "==")]
          ++ ("b", PyVal.str "z", OpSpec.sym "==") :: []) = .error .keyError
  ∧ check_condition [("a", PyVal.str "y")] (some exShortCond) = .error .keyError
  ∧ which_question exMissQ "activities" = .error .keyError
  ∧ ask_list [("activities", [exMissVar])] exMissQ [] = .error .keyError := by
  have h := check_condition_missing_key_error [("a", PyVal.str "y")]
    [("a", PyVal.str "y", OpSpec.sym "==")] [] "b" (PyVal.str "z") (OpSpec.sym "==")
    exShortCond exMissQ "activities" exMissVar [] [exMissVar] [] [] QErr.keyError
  refine ⟨h.1 (by decide) (by decide), h.2.1 rfl (by decide) (by decide), ?_, ?_⟩
  · exact h.2.2.1 rfl (h.2.1 rfl (by decide) (by decide))
  · exact h.2.2.2 (h.2.2.1 rfl (h.2.1 rfl (by decide) (by decide)))

/-! Stability of lookups and condition evaluation under append-only growth
    of `choices` (a successful pass only appends fresh entries). -/

theorem odGet_mono {α : Type} (c1 c2 : List (String × α)) (k : String)
    (hpre : c1 <+: c2) (hsome : (odGet c1 k).isSome = true) :
    odGet c2 k = odGet c1 k := by
  obtain ⟨t, rfl⟩ := hpre
  rw [odGet_append]
  cases hg : odGet c1 k with
  | none => rw [hg] at hsome; simp at hsome
  | some v => simp

theorem odGet_isSome_mono {α : Type} (c1 c2 : List (String × α)) (k : String)
    (hpre : c1 <+: c2) (hsome : (odGet c1 k).isSome = true) :
    (odGet c2 k).isSome = true := by
  rw [odGet_mono c1 c2 k hpre hsome]
  exact hsome

theorem odGet_append_self {α : Type} (c : List (String × α)) (k : String) (v : α)
    (h : odGet c k = Option.none) : odGet (c ++ [(k, v)]) k = some v := by
  rw [odGet_append, h]
  simp [odGet, List.find?]

theorem checkTriples_mono (c1 c2 : List (String × PyVal))
    (ts : List (String × PyVal × OpSpec)) (hpre : c1 <+: c2)
    (hkeys : ∀ t ∈ ts, (odGet c1 t.1).isSome = true) :
    checkTriples c2 ts = checkTriples c1 ts := by
  induction ts with
  | nil => rfl
  | cons t rest ih =>
    obtain ⟨k, v, op⟩ := t
    have hk := hkeys _ (List.mem_cons_self _ _)
    cases hg : odGet c1 k with
    | none => rw [hg] at hk; simp at hk
    | some ans =>
      have h2 : odGet c2 k = some ans := by
        rw [odGet_mono c1 c2 k hpre (by rw [hg]; rfl), hg]
      simp only [checkTriples, h2, hg]
      cases hap : applyOp op v ans with
      | error e => rfl
      | ok b =>
        cases b with
        | false => rfl
        | true => exact ih (fun u hu => hkeys u (List.mem_cons_of_mem _ hu))

theorem check_condition_mono (c1 c2 : List (String × PyVal)) (c : Condition)
    (hpre : c1 <+: c2) (hkeys : ∀ ck ∈ c.keys, (odGet c1 ck).isSome = true) :
    check_condition c2 (some c) = check_condition c1 (some c) := by
  refine checkTriples_mono c1 c2 (tripleList c) hpre ?_
  intro t ht
  obtain ⟨k, v, op⟩ := t
  exact hkeys k (List.of_mem_zip ht).1

theorem whichAux_mono (c1 c2 : List (String × PyVal)) (vars : List Question)
    (hpre : c1 <+: c2)
    (hkeys : ∀ v ∈ vars, ∀ ck ∈ condKeys v, (odGet c1 ck).isSome = true) :
    whichAux c2 vars = whichAux c1 vars := by
  induction vars with
  | nil => rfl
  | cons v rest ih =>
    have hcc : check_condition c2 v.condition = check_condition c1 v.condition := by
      cases hcond : v.condition with
      | none => rfl
      | some c =>
        refine check_condition_mono c1 c2 c hpre ?_
        intro ck hck
        refine hkeys v (List.mem_cons_self _ _) ck ?_
        rw [condKeys, hcond]
        exact hck
    simp only [whichAux, hcc]
    cases hc : check_condition c1 v.condition with
    | error e => rfl
    | ok b =>
      cases b with
      | true => rfl
      | false => exact ih (fun u hu => hkeys u (List.mem_cons_of_mem _ hu))

theorem which_question_mono (q q1 : Questionnaire) (key : String) (vars : List Question)
    (hq : q1.questions = q.questions) (hpre : q.choices <+: q1.choices)
    (hreg : odGet q.questions key = some vars)
    (hkeys : ∀ v ∈ vars, ∀ ck ∈ condKeys v, (odGet q.choices ck).isSome = true) :
    which_question q1 key = which_question q key := by
  unfold which_question
  rw [hq, hreg]
  exact whichAux_mono q.choices q1.choices vars hpre hkeys

/-- A key with an unconditioned variant is always resolved: the scan cannot
return `none` (it stops at the unconditioned variant at the latest). -/
theorem whichAux_ne_none_of_unconditioned (choices : List (String × PyVal))
    (vars : List Question) (hu : unconditionedVar vars = true) :
    whichAux choices vars ≠ .ok Option.none := by
  induction vars with
  | nil => simp [unconditionedVar] at hu
  | cons v rest ih =>
    rw [unconditionedVar, List.any_cons] at hu
    cases hvc : v.condition with
    | none => simp [whichAux, check_condition, hvc]
    | some c =>
      have hrest : unconditionedVar rest = true := by
        rcases (Bool.or_eq_true _ _).mp hu with h | h
        · rw [hvc] at h; simp at h
        · exact h
      rw [whichAux]
      cases hc : check_condition choices v.condition with
      | error e => simp
      | ok b =>
        cases b with
        | true => simp
        | false => exact ih hrest

/-- A successful prompt for a fresh key appends exactly one entry to
`choices` and leaves the question registry untouched. -/
theorem prompt_success_append (q : Questionnaire) (key : String) (opts : List String)
    (m : Bool) (script s' : List PickResult) (q' : Questionnaire)
    (hfresh : odGet q.choices key = Option.none)
    (h : prompt q key opts m script = .ok (q', true, s')) :
    q'.questions = q.questions ∧ ∃ v, q'.choices = q.choices ++ [(key, v)] := by
  cases m with
  | false =>
    simp only [prompt, Bool.false_eq_true, if_false] at h
    cases hb : back_pick script with
    | error e => rw [hb] at h; exact absurd h (by simp)
    | ok res =>
      obtain ⟨⟨opt, i⟩, rest⟩ := res
      rw [hb] at h
      simp only at h
      by_cases hi : i < 0
      · rw [if_pos hi] at h
        simp at h
      · rw [if_neg hi] at h
        simp only [Except.ok.injEq, Prod.mk.injEq] at h
        obtain ⟨h1, _, _⟩ := h
        subst h1
        exact ⟨rfl, recordPick opt, odSet_absent q.choices key (recordPick opt) hfresh⟩
  | true =>
    simp only [prompt, if_true] at h
    cases hb : back_pick_multiple script opts "all" "done..." with
    | error e => rw [hb] at h; exact absurd h (by simp)
    | ok res =>
      obtain ⟨sel, i, rest⟩ := res
      rw [hb] at h
      simp only at h
      by_cases hi : i < 0
      · rw [if_pos hi] at h
        split at h <;> simp at h
      · rw [if_neg hi] at h
        simp only [Except.ok.injEq, Prod.mk.injEq] at h
        obtain ⟨h1, _, _⟩ := h
        subst h1
        exact ⟨rfl, PyVal.list sel, odSet_absent q.choices key (PyVal.list sel) hfresh⟩

/-- With pairwise-distinct registered keys (an ordered dict never has
duplicates), each registry entry is found by lookup of its own key. -/
theorem odGet_self_of_nodup {α : Type} (d : List (String × α))
    (hnd : (d.map Prod.fst).Nodup) : ∀ p ∈ d, odGet d p.1 = some p.2 := by
  induction d with
  | nil => intro p hp; cases hp
  | cons e rest ih =>
    obtain ⟨k, vs⟩ := e
    rw [List.map_cons, List.nodup_cons] at hnd
    intro p hp
    rcases List.mem_cons.mp hp with rfl | hp2
    · rw [odGet_cons]
      simp
    · have hkm : p.1 ∈ List.map Prod.fst rest := List.mem_map_of_mem Prod.fst hp2
      have hne : (k == p.1) = false := by
        cases hx : k == p.1
        · rfl
        · exfalso
          apply hnd.1
          show k ∈ List.map Prod.fst rest
          rw [eq_of_beq hx]
          exact hkm
      rw [odGet_cons, hne]
      simp only [Bool.false_eq_true, if_false]
      exact ih hnd.2 p hp2

theorem which_question_eq_whichAux (q : Questionnaire) (key : String) (vars : List Question)
    (hreg : odGet q.questions key = some vars) :
    which_question q key = whichAux q.choices vars := by
  unfold which_question
  rw [hreg]

/-- The workhorse for idempotence: under the caller contract, a pass that
completes without back-navigation preserves the registry, only appends to
`choices`, and leaves every processed key either unresolved (still
unresolved at the final state) or resolved and answered there. -/
theorem ask_list_pass (rest : List (String × List Question)) :
    ∀ (prior : List String) (q : Questionnaire) (script : List PickResult)
      (q1 : Questionnaire) (r : List PickResult),
      contractAux rest prior = true →
      (∀ k ∈ prior, (odGet q.choices k).isSome = true) →
      (∀ p ∈ rest, odGet q.questions p.1 = some p.2) →
      ask_list rest q script = .ok (q1, true, r) →
      q1.questions = q.questions ∧ q.choices <+: q1.choices ∧
        (∀ p ∈ rest, which_question q1 p.1 = .ok Option.none ∨
          ∃ qq, which_question q1 p.1 = .ok (some qq) ∧ (odGet q1.choices p.1).isSome = true) := by
  induction rest with
  | nil =>
    intro prior q script q1 r _ _ _ h
    simp only [ask_list, Except.ok.injEq, Prod.mk.injEq] at h
    obtain ⟨h1, _, _⟩ := h
    subst h1
    exact ⟨rfl, List.prefix_refl _, fun p hp => absurd hp (List.not_mem_nil p)⟩
  | cons entry rest2 ih =>
    intro prior q script q1 r hcon hprior hreg h
    obtain ⟨key, vars⟩ := entry
    simp only [contractAux, Bool.and_eq_true] at hcon
    obtain ⟨hck, hcon2⟩ := hcon
    have hregKey : odGet q.questions key = some vars := hreg (key, vars) (List.mem_cons_self _ _)
    have hkeysPresent : ∀ v ∈ vars, ∀ ck ∈ condKeys v, (odGet q.choices ck).isSome = true := by
      intro v hv ck hckm
      have h1 := (List.all_eq_true.mp hck) v hv
      have h2 := (List.all_eq_true.mp h1) ck hckm
      exact hprior ck (by simpa using h2)
    have hregTail : ∀ p ∈ rest2, odGet q.questions p.1 = some p.2 :=
      fun p hp => hreg p (List.mem_cons_of_mem _ hp)
    cases hwq : which_question q key with
    | error e =>
      have hstep : ask_list ((key, vars) :: rest2) q script = .error e := by
        simp [ask_list, hwq]
      rw [hstep] at h
      exact absurd h (by simp)
    | ok oq =>
      cases oq with
      | none =>
        have hstep : ask_list ((key, vars) :: rest2) q script = ask_list rest2 q script := by
          simp [ask_list, hwq]
        rw [hstep] at h
        have hu : unconditionedVar vars = false := by
          cases hx : unconditionedVar vars
          · rfl
          · exfalso
            apply whichAux_ne_none_of_unconditioned q.choices vars hx
            rw [← which_question_eq_whichAux q key vars hregKey]
            exact hwq
        rw [hu] at hcon2
        simp only [Bool.false_eq_true, if_false] at hcon2
        obtain ⟨e1, e2, e3⟩ := ih prior q script q1 r hcon2 hprior hregTail h
        refine ⟨e1, e2, ?_⟩
        intro p hp
        rcases List.mem_cons.mp hp with rfl | hp2
        · left
          show which_question q1 key = .ok Option.none
          rw [which_question_mono q q1 key vars e1 e2 hregKey hkeysPresent]
          exact hwq
        · exact e3 p hp2
      | some question =>
        cases hch : odGet q.choices key with
        | some val =>
          have hstep : ask_list ((key, vars) :: rest2) q script = ask_list rest2 q script := by
            simp [ask_list, hwq, hch]
          rw [hstep] at h
          have hpriorNext : ∀ k ∈ (if unconditionedVar vars then prior ++ [key] else prior),
              (odGet q.choices k).isSome = true := by
            intro k hk
            by_cases hx : unconditionedVar vars = true
            · rw [if_pos hx] at hk
              rcases List.mem_append.mp hk with hk1 | hk2
              · exact hprior k hk1
              · rw [List.mem_singleton.mp hk2, hch]
                rfl
            · rw [if_neg hx] at hk
              exact hprior k hk
          obtain ⟨e1, e2, e3⟩ := ih _ q script q1 r hcon2 hpriorNext hregTail h
          refine ⟨e1, e2, ?_⟩
          intro p hp
          rcases List.mem_cons.mp hp with rfl | hp2
          · right
            refine ⟨question, ?_, ?_⟩
            · show which_question q1 key = .ok (some question)
              rw [which_question_mono q q1 key vars e1 e2 hregKey hkeysPresent]
              exact hwq
            · show (odGet q1.choices key).isSome = true
              exact odGet_isSome_mono q.choices q1.choices key e2 (by rw [hch]; rfl)
          · exact e3 p hp2
        | none =>
          cases hp2 : prompt q key question.options question.multiple script with
          | error e =>
            have hstep : ask_list ((key, vars) :: rest2) q script = .error e := by
              simp [ask_list, hwq, hch, hp2]
            rw [hstep] at h
            exact absurd h (by simp)
          | ok res =>
            obtain ⟨q2, b, s2⟩ := res
            cases b with
            | false =>
              have hstep : ask_list ((key, vars) :: rest2) q script = .ok (q2, false, s2) := by
                simp [ask_list, hwq, hch, hp2]
              rw [hstep] at h
              exact absurd h (by simp)
            | true =>
              have hstep : ask_list ((key, vars) :: rest2) q script = ask_list rest2 q2 s2 := by
                simp [ask_list, hwq, hch, hp2]
              rw [hstep] at h
              obtain ⟨hq2, v, hv⟩ := prompt_success_append q key question.options
                question.multiple script s2 q2 hch hp2
              have hpreStep : q.choices <+: q2.choices := by
                rw [hv]
                exact List.prefix_append _ _
              have hkeyIn : odGet q2.choices key = some v := by
                rw [hv]
                exact odGet_append_self q.choices key v hch
              have hpriorNext : ∀ k ∈ (if unconditionedVar vars then prior ++ [key] else prior),
                  (odGet q2.choices k).isSome = true := by
                intro k hk
                by_cases hx : unconditionedVar vars = true
                · rw [if_pos hx] at hk
                  rcases List.mem_append.mp hk with hk1 | hk2
                  · exact odGet_isSome_mono q.choices q2.choices k hpreStep (hprior k hk1)
                  · rw [List.mem_singleton.mp hk2, hkeyIn]
                    rfl
                · rw [if_neg hx] at hk
                  exact odGet_isSome_mono q.choices q2.choices k hpreStep (hprior k hk)
              have hregTail2 : ∀ p ∈ rest2, odGet q2.questions p.1 = some p.2 := by
                intro p hp
                rw [hq2]
                exact hregTail p hp
              obtain ⟨e1, e2, e3⟩ := ih _ q2 s2 q1 r hcon2 hpriorNext hregTail2 h
              have e1' : q1.questions = q.questions := by rw [e1, hq2]
              have e2' : q.choices <+: q1.choices := hpreStep.trans e2
              refine ⟨e1', e2', ?_⟩
              intro p hp
              rcases List.mem_cons.mp hp with rfl | hp3
              · right
                refine ⟨question, ?_, ?_⟩
                · show which_question q1 key = .ok (some question)
                  rw [which_question_mono q q1 key vars e1' e2' hregKey hkeysPresent]
                  exact hwq
                · show (odGet q1.choices key).isSome = true
                  exact odGet_isSome_mono q2.choices q1.choices key e2 (by rw [hkeyIn]; rfl)
              · exact e3 p hp3

/-- A pass over keys that are each unresolved or already answered performs
no prompt: it consumes no user input and leaves the state untouched. -/
theorem ask_list_noop (rest : List (String × List Question)) :
    ∀ (q : Questionnaire) (script : List PickResult),
      (∀ p ∈ rest, which_question q p.1 = .ok Option.none ∨
        ∃ qq, which_question q p.1 = .ok (some qq) ∧ (odGet q.choices p.1).isSome = true) →
      ask_list rest q script = .ok (q, true, script) := by
  induction rest with
  | nil =>
    intro q script _
    rfl
  | cons entry rest2 ih =>
    intro q script hprop
    obtain ⟨key, vars⟩ := entry
    have htail : ∀ p ∈ rest2, which_question q p.1 = .ok Option.none ∨
        ∃ qq, which_question q p.1 = .ok (some qq) ∧ (odGet q.choices p.1).isSome = true :=
      fun p hp => hprop p (List.mem_cons_of_mem _ hp)
    rcases hprop (key, vars) (List.mem_cons_self _ _) with hnone | ⟨qq, hsome, hmem⟩
    · have hnone2 : which_question q key = .ok Option.none := hnone
      have hstep : ask_list ((key, vars) :: rest2) q script = ask_list rest2 q script := by
        simp [ask_list, hnone2]
      rw [hstep]
      exact ih q script htail
    · have hsome2 : which_question q key = .ok (some qq) := hsome
      have hmem2 : (odGet q.choices key).isSome = true := hmem
      cases hch : odGet q.choices key with
      | none =>
        rw [hch] at hmem2
        simp at hmem2
      | some val =>
        have hstep : ask_list ((key, vars) :: rest2) q script = ask_list rest2 q script := by
          simp [ask_list, hsome2, hch]
        rw [hstep]
        exact ih q script htail

/-- Claim C6: after a full `ask_questions` pass completes without
back-navigation, and under the caller contract that every condition
references only keys guaranteed to be answered earlier in registration
order (checked by `contractOk`: each condition key names an
earlier-registered key owning an unconditioned variant), a second pass
prompts nothing: it consumes no user input and returns the same state
unchanged. -/
theorem ask_questions_idempotent (q q1 : Questionnaire)
    (script r script2 : List PickResult)
    (hnd : (q.questions.map Prod.fst).Nodup)
    (hcon : contractOk q.questions = true)
    (h1 : ask_questions q script = .ok (q1, true, r)) :
    ask_questions q1 script2 = .ok (q1, true, script2) := by
  have hreg := odGet_self_of_nodup q.questions hnd
  have hmain := ask_list_pass q.questions [] q script q1 r hcon
    (fun k hk => absurd hk (List.not_mem_nil k)) hreg h1
  obtain ⟨e1, _, e3⟩ := hmain
  unfold ask_questions
  rw [e1]
  exact ask_list_noop q.questions q1 script2 e3

def exQ0 : Questionnaire := ⟨exRegistry, []⟩

def exScript : List PickResult :=
  [PickResult.picked "saturday" 2, PickResult.picked "morning" 0,
   PickResult.picked "watch footy match" 2, PickResult.picked "done..." 4]

def exQ1 : Questionnaire :=
  ⟨exRegistry,
   [("day", PyVal.str "saturday"), ("time", PyVal.str "morning"),
    ("activities", PyVal.list ["watch footy match"])]⟩

/-- Claim C6 witness: the activities questionnaire run with
`day = saturday`, `time = morning`, `activities = [watch footy match]`
completes a full pass; a second pass with fresh input consumes nothing and
leaves the answers unchanged. -/
theorem ask_questions_idempotent_witness :
    ask_questions exQ0 exScript = .ok (exQ1, true, [])
  ∧ ask_questions exQ1 exScript = .ok (exQ1, true, exScript) := by
  have hrun : ask_questions exQ0 exScript = .ok (exQ1, true, []) := by rfl
  exact ⟨hrun, ask_questions_idempotent exQ0 exQ1 exScript [] exScript
    (by decide) (by decide) hrun⟩
